import Mathlib

/-!
Verification development for a single-particle-tracking pipeline (the `quot`
package).  The visible repository sources are `src/quot/__init__.py` (the public
interface) and `src/quot/gui/launcher.py` (the launcher GUI); the core pipeline
modules (`findSpots`, `subpixel`, `track`, `core`) are declared by the public
interface but their code is not in the repository snapshot, so those components
are modelled from the specification.  Numeric pixel and position values are
embedded over an arbitrary linear ordered commutative ring `α` (exact arithmetic
standing in for floating point); concrete evaluations instantiate `α := ℤ`.
-/

namespace QuotSPT

variable {α : Type} [LinearOrderedCommRing α]

/-- A sub-pixel position `(y, x)` in pixel units. -/
structure Pos (α : Type) where
  y : α
  x : α
deriving DecidableEq

/-- Squared Euclidean distance between two positions. -/
def dist2 (a b : Pos α) : α :=
  (a.y - b.y) * (a.y - b.y) + (a.x - b.x) * (a.x - b.x)

/-- Modelled from the spec: a Localization (`quot.subpixel` output row, not
under src/): the durable per-frame observation with a unique identifier
assigned in detection order, its source frame index and a sub-pixel position. -/
structure Loc (α : Type) where
  locId : Nat
  frame : Nat
  pos : Pos α
deriving DecidableEq

/-- Modelled from the spec: an active Trajectory of the Frame Linker
(`quot.track`, not under src/): its identifier, the predicted position for the
next frame (its last known position), its gap counter, and its accumulated
members as `(frame index, position)` rows. -/
structure Traj (α : Type) where
  id : Nat
  pos : Pos α
  gap : Nat
  hist : List (Nat × Pos α)
deriving DecidableEq

/-- Modelled from the spec: the linking configuration
`{max_distance, max_gap}` — the gating radius squared and the maximum number
of consecutive frames a Trajectory may go unmatched. -/
structure LinkCfg (α : Type) where
  searchRadius2 : α
  maxGap : Nat
deriving DecidableEq

/-- Modelled from the spec: the cost of linking a Trajectory to a
Localization is the squared Euclidean distance between the Trajectory's
predicted position and the Localization's position. -/
def cost (t : Traj α) (l : Loc α) : α :=
  dist2 t.pos l.pos

/-- Modelled from the spec: an edge is feasible when its cost does not exceed
the gating radius squared; entries beyond the maximum linking distance are
forbidden edges. -/
def feasibleB (cfg : LinkCfg α) (t : Traj α) (l : Loc α) : Bool :=
  decide (cost t l ≤ cfg.searchRadius2)

/-- Remove every Localization carrying the given Localization's identifier. -/
def removeLoc (ls : List (Loc α)) (l : Loc α) : List (Loc α) :=
  ls.filter (fun l2 => l2.locId != l.locId)

/-- Modelled from the spec: all one-to-one matchings between the active
Trajectories and the frame's Localizations that use only feasible edges.
Each Trajectory is used at most once by construction, and a chosen
Localization's identifier is removed from the pool for the remaining
Trajectories. -/
def allMatchings (cfg : LinkCfg α) : List (Traj α) → List (Loc α) → List (List (Traj α × Loc α))
  | [], _ => [[]]
  | t :: ts, ls =>
      allMatchings cfg ts ls ++
        (ls.filter (feasibleB cfg t)).flatMap (fun l =>
          (allMatchings cfg ts (removeLoc ls l)).map (fun m => (t, l) :: m))

/-- Total cost of a matching. -/
def totalCost (m : List (Traj α × Loc α)) : α :=
  (m.map (fun p => cost p.1 p.2)).sum

/-- The `(Trajectory identifier, Localization identifier)` pairs of a matching,
compared lexicographically to break ties deterministically. -/
def pairIds (m : List (Traj α × Loc α)) : List (Lex (Nat × Nat)) :=
  m.map (fun p => toLex (p.1.id, p.2.locId))

/-- The selection key of a matching among the matchings of `n` active
Trajectories: fewest unmatched Trajectories first (an optimal assignment links
as many feasible pairs as possible), then least total cost, then the
identifier pairs in lexicographic order (lowest Trajectory identifier, then
lowest Localization identifier). -/
def matchKey (n : Nat) (m : List (Traj α × Loc α)) :
    Lex (Nat × Lex (α × List (Lex (Nat × Nat)))) :=
  toLex (n - m.length, toLex (totalCost m, pairIds m))

/-- Modelled from the spec: the Frame Linker's assignment step (`quot.track`,
not under src/): the minimum-cost one-to-one assignment restricted to feasible
edges, with ties broken by lowest Trajectory identifier, then lowest
Localization identifier. -/
def chooseMatching (cfg : LinkCfg α) (ts : List (Traj α)) (ls : List (Loc α)) :
    List (Traj α × Loc α) :=
  ((allMatchings cfg ts ls).argmin (matchKey ts.length)).getD []

theorem nil_mem_allMatchings (cfg : LinkCfg α) :
    ∀ (ts : List (Traj α)) (ls : List (Loc α)), [] ∈ allMatchings cfg ts ls := by
  intro ts
  induction ts with
  | nil => intro ls; simp [allMatchings]
  | cons t ts ih =>
      intro ls
      simp only [allMatchings, List.mem_append]
      exact Or.inl (ih ls)

theorem mem_allMatchings_pairs (cfg : LinkCfg α) :
    ∀ (ts : List (Traj α)) (ls : List (Loc α)) (m : List (Traj α × Loc α)),
      m ∈ allMatchings cfg ts ls →
      ∀ p ∈ m, p.1 ∈ ts ∧ p.2 ∈ ls ∧ cost p.1 p.2 ≤ cfg.searchRadius2 := by
  intro ts
  induction ts with
  | nil =>
      intro ls m hm p hp
      simp [allMatchings] at hm
      subst hm
      simp at hp
  | cons t ts ih =>
      intro ls m hm p hp
      simp only [allMatchings, List.mem_append, List.mem_flatMap, List.mem_map,
        List.mem_filter] at hm
      rcases hm with hm | ⟨l, ⟨hl, hfeas⟩, m', hm', rfl⟩
      · rcases ih ls m hm p hp with ⟨h1, h2, h3⟩
        exact ⟨List.mem_cons_of_mem _ h1, h2, h3⟩
      · rcases List.mem_cons.mp hp with rfl | hp'
        · refine ⟨List.mem_cons_self _ _, hl, ?_⟩
          simpa [feasibleB] using hfeas
        · rcases ih (removeLoc ls l) m' hm' p hp' with ⟨h1, h2, h3⟩
          exact ⟨List.mem_cons_of_mem _ h1, List.mem_of_mem_filter h2, h3⟩

theorem mem_allMatchings_fst_sublist (cfg : LinkCfg α) :
    ∀ (ts : List (Traj α)) (ls : List (Loc α)) (m : List (Traj α × Loc α)),
      m ∈ allMatchings cfg ts ls → (m.map Prod.fst).Sublist ts := by
  intro ts
  induction ts with
  | nil =>
      intro ls m hm
      simp [allMatchings] at hm
      subst hm
      simp
  | cons t ts ih =>
      intro ls m hm
      simp only [allMatchings, List.mem_append, List.mem_flatMap, List.mem_map,
        List.mem_filter] at hm
      rcases hm with hm | ⟨l, ⟨_, _⟩, m', hm', rfl⟩
      · exact (ih ls m hm).cons t
      · simpa using (ih (removeLoc ls l) m' hm').cons₂ t

theorem mem_allMatchings_locIds_nodup (cfg : LinkCfg α) :
    ∀ (ts : List (Traj α)) (ls : List (Loc α)) (m : List (Traj α × Loc α)),
      m ∈ allMatchings cfg ts ls → (m.map (fun p => p.2.locId)).Nodup := by
  intro ts
  induction ts with
  | nil =>
      intro ls m hm
      simp [allMatchings] at hm
      subst hm
      simp
  | cons t ts ih =>
      intro ls m hm
      simp only [allMatchings, List.mem_append, List.mem_flatMap, List.mem_map,
        List.mem_filter] at hm
      rcases hm with hm | ⟨l, ⟨_, _⟩, m', hm', rfl⟩
      · exact ih ls m hm
      · simp only [List.map_cons, List.nodup_cons]
        refine ⟨?_, ih (removeLoc ls l) m' hm'⟩
        intro hmem
        rcases List.mem_map.mp hmem with ⟨p, hp, hpid⟩
        have h2 := (mem_allMatchings_pairs cfg ts (removeLoc ls l) m' hm' p hp).2.1
        have : p.2.locId != l.locId := (List.mem_filter.mp h2).2
        simp [hpid] at this

theorem chooseMatching_mem (cfg : LinkCfg α) (ts : List (Traj α)) (ls : List (Loc α)) :
    chooseMatching cfg ts ls ∈ allMatchings cfg ts ls := by
  unfold chooseMatching
  cases hm : (allMatchings cfg ts ls).argmin (matchKey ts.length) with
  | none =>
      rw [List.argmin_eq_none] at hm
      have := nil_mem_allMatchings cfg ts ls
      rw [hm] at this
      simp at this
  | some m =>
      simpa using List.argmin_mem hm

theorem chooseMatching_min (cfg : LinkCfg α) (ts : List (Traj α)) (ls : List (Loc α)) :
    ∀ m ∈ allMatchings cfg ts ls,
      matchKey ts.length (chooseMatching cfg ts ls) ≤ matchKey ts.length m := by
  intro m hm
  unfold chooseMatching
  cases hc : (allMatchings cfg ts ls).argmin (matchKey ts.length) with
  | none =>
      rw [List.argmin_eq_none] at hc
      have := nil_mem_allMatchings cfg ts ls
      rw [hc] at this
      simp at this
  | some best =>
      simpa using List.le_of_mem_argmin hm hc

/-- Modelled from the spec: the Frame Linker's working state (`quot.track`, not
under src/): the active Trajectories, the closed Trajectories kept in the
Trajectory Store, the next fresh Trajectory identifier, and the ghost list of
identifiers in order of Trajectory birth. -/
structure LinkState (α : Type) where
  active : List (Traj α)
  finished : List (Traj α)
  nextId : Nat
  births : List Nat
deriving DecidableEq

/-- The Frame Linker's initial state: no Trajectories, next identifier 0. -/
def initLinkState : LinkState α :=
  ⟨[], [], 0, []⟩

/-- The matched pair of a given Trajectory in a matching, if any. -/
def findPair (m : List (Traj α × Loc α)) (t : Traj α) : Option (Traj α × Loc α) :=
  m.find? (fun p => p.1.id == t.id)

/-- Whether a Localization is matched in a matching. -/
def matchedLocB (m : List (Traj α × Loc α)) (l : Loc α) : Bool :=
  (m.find? (fun p => p.2.locId == l.locId)).isSome

/-- Modelled from the spec: a matched pair extends the Trajectory with the new
Localization and resets its gap counter. -/
def extendTraj (fr : Nat) (t : Traj α) (l : Loc α) : Traj α :=
  ⟨t.id, l.pos, 0, t.hist ++ [(fr, l.pos)]⟩

/-- Modelled from the spec: an unmatched Localization spawns a new Trajectory,
initialized active with gap counter zero. -/
def newTraj (fr : Nat) (n : Nat) (l : Loc α) : Traj α :=
  ⟨n, l.pos, 0, [(fr, l.pos)]⟩

/-- Spawn new Trajectories for a list of unmatched Localizations, assigning
monotonically increasing identifiers starting at `n`. -/
def bornList (fr : Nat) : Nat → List (Loc α) → List (Traj α)
  | _, [] => []
  | n, l :: ls => newTraj fr n l :: bornList fr (n + 1) ls

/-- Modelled from the spec: the per-frame fate of one active Trajectory: if
matched it is extended with its Localization; otherwise its gap counter is
incremented and the Trajectory is dropped from the active set when the counter
exceeds the configured maximum gap. -/
def stepTraj (cfg : LinkCfg α) (fr : Nat) (m : List (Traj α × Loc α)) (t : Traj α) :
    Option (Traj α) :=
  match findPair m t with
  | some p => some (extendTraj fr t p.2)
  | none => if cfg.maxGap < t.gap + 1 then none else some ⟨t.id, t.pos, t.gap + 1, t.hist⟩

/-- Modelled from the spec: the Frame Linker's per-frame algorithm
(`quot.track`, not under src/): solve the gated assignment between active
Trajectories and the frame's Localizations, extend matched Trajectories,
close Trajectories whose gap counter exceeds the maximum gap, and spawn new
Trajectories for unmatched Localizations. -/
def linkFrame (cfg : LinkCfg α) (st : LinkState α) (fr : Nat) (ls : List (Loc α)) :
    LinkState α :=
  let m := chooseMatching cfg st.active ls
  let survivors := st.active.filterMap (stepTraj cfg fr m)
  let closedNow := st.active.filter
    (fun t => (findPair m t).isNone && decide (cfg.maxGap < t.gap + 1))
  let unmatched := ls.filter (fun l => !(matchedLocB m l))
  let born := bornList fr st.nextId unmatched
  ⟨survivors ++ born, st.finished ++ closedNow,
    st.nextId + unmatched.length, st.births ++ born.map Traj.id⟩

/-- Modelled from the spec: streaming frame-to-frame linking — a left fold of
`linkFrame` over the `(frame index, Localizations)` sequence. -/
def linkRun (cfg : LinkCfg α) (st : LinkState α) (frames : List (Nat × List (Loc α))) :
    LinkState α :=
  frames.foldl (fun s fl => linkFrame cfg s fl.1 fl.2) st

/-- Modelled from the spec: after the final frame, all remaining active
Trajectories are closed; the Trajectory Store holds them all. -/
def finishRun (st : LinkState α) : List (Traj α) :=
  st.finished ++ st.active

/-- One row of the output trajectory table: a member Localization annotated
with its owning Trajectory identifier. -/
structure Row (α : Type) where
  trajId : Nat
  frame : Nat
  pos : Pos α
deriving DecidableEq

/-- The table rows of one Trajectory. -/
def rowsOf (t : Traj α) : List (Row α) :=
  t.hist.map (fun h => ⟨t.id, h.1, h.2⟩)

/-- Row order of the trajectory table: increasing Trajectory identifier, then
increasing frame index. -/
def rowBefore (a b : Row α) : Bool :=
  decide (a.trajId < b.trajId) || (a.trajId == b.trajId && decide (a.frame ≤ b.frame))

/-- Insert an element into a list ahead of the first element it precedes. -/
def insertSorted {β : Type} (lt : β → β → Bool) (x : β) : List β → List β
  | [] => [x]
  | y :: ys => if lt x y then x :: y :: ys else y :: insertSorted lt x ys

/-- Insertion sort by a boolean precedence function. -/
def sortByB {β : Type} (lt : β → β → Bool) (l : List β) : List β :=
  l.foldr (insertSorted lt) []

/-- Modelled from the spec: the Trajectory Store's serialized table
(`quot.track` output, not under src/): every Trajectory's member rows, in
increasing (trajectory identifier, frame index) order. -/
def trajTable (trajs : List (Traj α)) : List (Row α) :=
  sortByB rowBefore (trajs.flatMap rowsOf)

/-- Invariant of reachable Frame Linker states: active identifiers are fresh
and distinct, identifiers in birth order are strictly increasing and below the
next fresh identifier, and every stored Trajectory was born. -/
def LinkInv (st : LinkState α) : Prop :=
  (∀ t ∈ st.active, t.id < st.nextId) ∧
  (st.active.map Traj.id).Nodup ∧
  List.Pairwise (· < ·) st.births ∧
  (∀ b ∈ st.births, b < st.nextId) ∧
  (∀ t ∈ st.active ++ st.finished, t.id ∈ st.births)

instance (st : LinkState α) : Decidable (LinkInv st) :=
  inferInstanceAs (Decidable
    ((∀ t ∈ st.active, t.id < st.nextId) ∧
      (st.active.map Traj.id).Nodup ∧
      List.Pairwise (· < ·) st.births ∧
      (∀ b ∈ st.births, b < st.nextId) ∧
      (∀ t ∈ st.active ++ st.finished, t.id ∈ st.births)))

theorem linkInv_init : LinkInv (initLinkState (α := α)) := by
  simp [LinkInv, initLinkState]

theorem bornList_mem (fr : Nat) :
    ∀ (ls : List (Loc α)) (n : Nat) (t : Traj α),
      t ∈ bornList fr n ls → n ≤ t.id ∧ t.id < n + ls.length := by
  intro ls
  induction ls with
  | nil => intro n t ht; simp [bornList] at ht
  | cons l ls ih =>
      intro n t ht
      rcases List.mem_cons.mp ht with rfl | ht'
      · simp [newTraj]
      · rcases ih (n + 1) t ht' with ⟨h1, h2⟩
        simp only [List.length_cons]
        omega

theorem bornList_ids_pairwise (fr : Nat) :
    ∀ (ls : List (Loc α)) (n : Nat),
      List.Pairwise (· < ·) ((bornList fr n ls).map Traj.id) := by
  intro ls
  induction ls with
  | nil => intro n; simp [bornList]
  | cons l ls ih =>
      intro n
      simp only [bornList, List.map_cons, List.pairwise_cons]
      refine ⟨?_, ih (n + 1)⟩
      intro b hb
      rcases List.mem_map.mp hb with ⟨t, ht, rfl⟩
      have := (bornList_mem fr ls (n + 1) t ht).1
      simpa [newTraj] using Nat.lt_of_lt_of_le (Nat.lt_succ_self n) this

theorem stepTraj_id (cfg : LinkCfg α) (fr : Nat) (m : List (Traj α × Loc α))
    (t t' : Traj α) (h : stepTraj cfg fr m t = some t') : t'.id = t.id := by
  unfold stepTraj at h
  cases hf : findPair m t with
  | some p => rw [hf] at h; simp [extendTraj] at h; rw [← h]
  | none =>
      rw [hf] at h
      by_cases hg : cfg.maxGap < t.gap + 1
      · simp [hg] at h
      · simp [hg] at h; rw [← h]

theorem filterMap_id_sublist (f : Traj α → Option (Traj α))
    (hf : ∀ t t', f t = some t' → t'.id = t.id) :
    ∀ l : List (Traj α), ((l.filterMap f).map Traj.id).Sublist (l.map Traj.id) := by
  intro l
  induction l with
  | nil => simp
  | cons t l ih =>
      cases hft : f t with
      | none => simpa [List.filterMap_cons, hft] using ih.cons t.id
      | some t' =>
          simp only [List.filterMap_cons, hft, List.map_cons]
          rw [hf t t' hft]
          exact ih.cons₂ t.id

theorem linkInv_linkFrame (cfg : LinkCfg α) (st : LinkState α) (fr : Nat)
    (ls : List (Loc α)) (h : LinkInv st) : LinkInv (linkFrame cfg st fr ls) := by
  obtain ⟨hA, hB, hC, hD, hE⟩ := h
  unfold linkFrame LinkInv
  simp only
  set m := chooseMatching cfg st.active ls with hm
  set unmatched := ls.filter (fun l => !(matchedLocB m l)) with hunm
  have survivors_mem : ∀ t' ∈ st.active.filterMap (stepTraj cfg fr m),
      ∃ t ∈ st.active, t'.id = t.id := by
    intro t' ht'
    rcases List.mem_filterMap.mp ht' with ⟨t, ht, hstep⟩
    exact ⟨t, ht, stepTraj_id cfg fr m t t' hstep⟩
  have born_mem : ∀ t ∈ bornList fr st.nextId unmatched,
      st.nextId ≤ t.id ∧ t.id < st.nextId + unmatched.length :=
    fun t ht => bornList_mem fr unmatched st.nextId t ht
  have born_ids_ge : ∀ b ∈ (bornList fr st.nextId unmatched).map Traj.id,
      st.nextId ≤ b ∧ b < st.nextId + unmatched.length := by
    intro b hb
    rcases List.mem_map.mp hb with ⟨t, ht, rfl⟩
    exact born_mem t ht
  have born_pw := bornList_ids_pairwise fr unmatched st.nextId
  have born_nodup : ((bornList fr st.nextId unmatched).map Traj.id).Nodup :=
    born_pw.imp (fun hlt => Nat.ne_of_lt hlt)
  refine ⟨?_, ?_, ?_, ?_, ?_⟩
  · intro t ht
    rcases List.mem_append.mp ht with hs | hb
    · rcases survivors_mem t hs with ⟨t0, ht0, hid⟩
      have := hA t0 ht0
      omega
    · exact (born_mem t hb).2
  · rw [List.map_append]
    refine List.Nodup.append ?_ born_nodup ?_
    · exact ((filterMap_id_sublist (stepTraj cfg fr m) (stepTraj_id cfg fr m)
        st.active)).nodup hB
    · intro b hbs hbb
      rcases List.mem_map.mp hbs with ⟨t', ht', rfl⟩
      rcases survivors_mem t' ht' with ⟨t0, ht0, hid⟩
      have h1 := hA t0 ht0
      have h2 := (born_ids_ge _ hbb).1
      omega
  · rw [List.pairwise_append]
    refine ⟨hC, born_pw, ?_⟩
    intro x hx y hy
    have hyb := (born_ids_ge y hy).1
    have := hD x hx
    omega
  · intro b hb
    rcases List.mem_append.mp hb with hb | hb
    · have := hD b hb; omega
    · exact (born_ids_ge b hb).2
  · intro t ht
    rcases List.mem_append.mp ht with ht | ht
    · rcases List.mem_append.mp ht with hs | hbn
      · rcases survivors_mem t hs with ⟨t0, ht0, hid⟩
        rw [hid]
        exact List.mem_append_left _ (hE t0 (List.mem_append_left _ ht0))
      · exact List.mem_append_right _ (List.mem_map_of_mem Traj.id hbn)
    · rcases List.mem_append.mp ht with hf | hcl
      · exact List.mem_append_left _ (hE t (List.mem_append_right _ hf))
      · have : t ∈ st.active := List.mem_of_mem_filter hcl
        exact List.mem_append_left _ (hE t (List.mem_append_left _ this))

theorem linkInv_linkRun (cfg : LinkCfg α) (frames : List (Nat × List (Loc α))) :
    ∀ st : LinkState α, LinkInv st → LinkInv (linkRun cfg st frames) := by
  induction frames with
  | nil => intro st h; simpa [linkRun] using h
  | cons fl frames ih =>
      intro st h
      simpa [linkRun] using ih (linkFrame cfg st fl.1 fl.2) (linkInv_linkFrame cfg st fl.1 fl.2 h)

/-- C1: for every processed frame of a Frame Linker run, the matched pairs
form a valid one-to-one matching between active Trajectories and that frame's
Localizations — no Trajectory identifier and no Localization identifier
appears in more than one pair — and every matched pair's squared-Euclidean
cost is at most the gating radius squared, so entries beyond the maximum
linking distance are never matched. -/
theorem c1_linker_matching_valid (cfg : LinkCfg α)
    (frames : List (Nat × List (Loc α))) (k : Nat) :
    let st := linkRun cfg initLinkState (frames.take k)
    let ls := (frames.getD k (0, [])).2
    let m := chooseMatching cfg st.active ls
    (m.map (fun p => p.1.id)).Nodup ∧
      (m.map (fun p => p.2.locId)).Nodup ∧
      ∀ p ∈ m, p.1 ∈ st.active ∧ p.2 ∈ ls ∧ cost p.1 p.2 ≤ cfg.searchRadius2 := by
  intro st ls m
  have hinv := linkInv_linkRun cfg (frames.take k) initLinkState linkInv_init
  have hmem := chooseMatching_mem cfg st.active ls
  refine ⟨?_, mem_allMatchings_locIds_nodup cfg _ _ _ hmem,
    mem_allMatchings_pairs cfg _ _ _ hmem⟩
  have hsub := (mem_allMatchings_fst_sublist cfg st.active ls _ hmem).map Traj.id
  have hnd := hsub.nodup hinv.2.1
  simpa [List.map_map, Function.comp] using hnd

/-- Concrete linking configuration for the C1 witness run. -/
def c1Cfg : LinkCfg ℤ :=
  ⟨2, 1⟩

/-- Concrete two-frame Localization input for the C1 witness run. -/
def c1Frames : List (Nat × List (Loc ℤ)) :=
  [(0, [⟨0, 0, ⟨0, 0⟩⟩, ⟨1, 0, ⟨10, 10⟩⟩]), (1, [⟨2, 1, ⟨0, 1⟩⟩])]

theorem c1_linker_matching_valid_witness :
    let st := linkRun c1Cfg initLinkState (c1Frames.take 1)
    let ls := (c1Frames.getD 1 (0, [])).2
    let m := chooseMatching c1Cfg st.active ls
    (m.map (fun p => p.1.id)).Nodup ∧
      (m.map (fun p => p.2.locId)).Nodup ∧
      ∀ p ∈ m, p.1 ∈ st.active ∧ p.2 ∈ ls ∧ cost p.1 p.2 ≤ c1Cfg.searchRadius2 :=
  c1_linker_matching_valid c1Cfg c1Frames 1

/-- Concrete linking configuration (max gap 1) for the C2 counterexample. -/
def c2Cfg : LinkCfg ℤ :=
  ⟨4, 1⟩

/-- Two frames: one Localization at frame 0, none at frame 1; the born
Trajectory goes unmatched at frame 1 and its gap counter reaches the maximum
gap exactly. -/
def c2Frames : List (Nat × List (Loc ℤ)) :=
  [(0, [⟨0, 0, ⟨0, 0⟩⟩]), (1, [])]

/-- C2 counterexample: with max gap 1, after the empty frame the Trajectory's
gap counter equals the maximum gap exactly, yet the Trajectory is still in the
active set and has not been closed — the claim that a gap counter reaching
exactly the maximum closes the Trajectory at that frame is false of the
linker (it closes only when the counter exceeds the maximum, as the spec's
algorithm step 5 and both test scenarios require). -/
theorem c2_gap_boundary_counterexample :
    c2Cfg.maxGap = 1 ∧
      (linkRun c2Cfg initLinkState c2Frames).active.map (fun t => (t.id, t.gap)) =
        [(0, 1)] ∧
      (linkRun c2Cfg initLinkState c2Frames).finished = [] := by
  decide

/-- C2 as amended: an unmatched active Trajectory is closed and removed from
the active set at the frame where its incremented gap counter first exceeds
the configured maximum gap; while the counter is still at most the maximum,
the Trajectory stays active (with the counter incremented). -/
theorem c2_gap_boundary (cfg : LinkCfg α) (st : LinkState α) (fr : Nat)
    (ls : List (Loc α)) (t : Traj α) (hinv : LinkInv st) (ht : t ∈ st.active)
    (hun : findPair (chooseMatching cfg st.active ls) t = none) :
    (cfg.maxGap < t.gap + 1 →
      t ∈ (linkFrame cfg st fr ls).finished ∧
        ∀ t2 ∈ (linkFrame cfg st fr ls).active, t2.id ≠ t.id) ∧
    (t.gap + 1 ≤ cfg.maxGap →
      (⟨t.id, t.pos, t.gap + 1, t.hist⟩ : Traj α) ∈ (linkFrame cfg st fr ls).active) := by
  obtain ⟨hA, hB, _, _, _⟩ := hinv
  constructor
  · intro hg
    constructor
    · show t ∈ st.finished ++ _
      refine List.mem_append_right _ (List.mem_filter.mpr ⟨ht, ?_⟩)
      simp [hun, hg]
    · intro t2 ht2
      rcases List.mem_append.mp ht2 with hs | hb
      · rcases List.mem_filterMap.mp hs with ⟨s, hsmem, hstep⟩
        intro hid
        have hsid : s.id = t.id := by rw [← stepTraj_id cfg fr _ s t2 hstep, hid]
        have hst : s = t := List.inj_on_of_nodup_map hB hsmem ht hsid
        rw [hst] at hstep
        rw [stepTraj, hun] at hstep
        simp [hg] at hstep
      · have := (bornList_mem fr _ st.nextId t2 hb).1
        have := hA t ht
        omega
  · intro hle
    show _ ∈ _ ++ _
    refine List.mem_append_left _ (List.mem_filterMap.mpr ⟨t, ht, ?_⟩)
    rw [stepTraj, hun]
    simp [Nat.not_lt.mpr hle]

/-- Configuration with max gap 0 for the C2 amended-claim witness. -/
def c2CfgW : LinkCfg ℤ :=
  ⟨4, 0⟩

/-- A Frame Linker state holding one active Trajectory with gap counter 0. -/
def c2St : LinkState ℤ :=
  ⟨[⟨0, ⟨0, 0⟩, 0, [(0, ⟨0, 0⟩)]⟩], [], 1, [0]⟩

/-- The single active Trajectory of `c2St`. -/
def c2T : Traj ℤ :=
  ⟨0, ⟨0, 0⟩, 0, [(0, ⟨0, 0⟩)]⟩

theorem c2_gap_boundary_witness :
    (c2CfgW.maxGap < c2T.gap + 1 →
      c2T ∈ (linkFrame c2CfgW c2St 1 []).finished ∧
        ∀ t2 ∈ (linkFrame c2CfgW c2St 1 []).active, t2.id ≠ c2T.id) ∧
    (c2T.gap + 1 ≤ c2CfgW.maxGap →
      (⟨c2T.id, c2T.pos, c2T.gap + 1, c2T.hist⟩ : Traj ℤ) ∈
        (linkFrame c2CfgW c2St 1 []).active) :=
  c2_gap_boundary c2CfgW c2St 1 [] c2T (by decide) (by decide) (by decide)

/-- C7: within one file's run, trajectory identifiers are non-negative
integers (`Nat`) assigned at trajectory birth in strictly increasing order of
birth, never reused, and every Trajectory in the final store carries one of
the born identifiers. -/
theorem c7_traj_ids_strictly_increasing (cfg : LinkCfg α)
    (frames : List (Nat × List (Loc α))) :
    let st := linkRun cfg initLinkState frames
    List.Pairwise (· < ·) st.births ∧ st.births.Nodup ∧
      ∀ t ∈ finishRun st, t.id ∈ st.births := by
  intro st
  have hinv := linkInv_linkRun cfg frames initLinkState linkInv_init
  refine ⟨hinv.2.2.1, hinv.2.2.1.imp (fun h => Nat.ne_of_lt h), ?_⟩
  intro t ht
  rcases List.mem_append.mp ht with hf | ha
  · exact hinv.2.2.2.2 t (List.mem_append_right _ hf)
  · exact hinv.2.2.2.2 t (List.mem_append_left _ ha)

/-- Concrete linking configuration for the C7 witness run. -/
def c7Cfg : LinkCfg ℤ :=
  ⟨2, 0⟩

/-- Concrete three-frame Localization input for the C7 witness run. -/
def c7Frames : List (Nat × List (Loc ℤ)) :=
  [(0, [⟨0, 0, ⟨0, 0⟩⟩]), (1, [⟨1, 1, ⟨0, 1⟩⟩, ⟨2, 1, ⟨9, 9⟩⟩]), (2, [])]

theorem c7_traj_ids_strictly_increasing_witness :
    let st := linkRun c7Cfg initLinkState c7Frames
    List.Pairwise (· < ·) st.births ∧ st.births.Nodup ∧
      ∀ t ∈ finishRun st, t.id ∈ st.births :=
  c7_traj_ids_strictly_increasing c7Cfg c7Frames

/-- Modelled from the spec: a Frame — a 2D array of intensity values (rows of
pixels) plus its integer index in the source sequence. -/
structure Frame (α : Type) where
  index : Nat
  data : List (List α)
deriving DecidableEq

/-- A frame is degenerate (unreadable) when it has no rows, an empty row, or
ragged rows. -/
def Frame.degenerate (f : Frame α) : Bool :=
  f.data.isEmpty ||
    f.data.any (fun r => r.isEmpty || (r.length != (f.data.headD []).length))

/-- A Candidate: integer pixel coordinates of a suspected spot. -/
structure Cand where
  row : Nat
  col : Nat
deriving DecidableEq

/-- Squared Euclidean distance between two Candidates' pixel coordinates. -/
def cdist2 (a b : Cand) : Int :=
  ((a.row : Int) - b.row) * ((a.row : Int) - b.row) +
    ((a.col : Int) - b.col) * ((a.col : Int) - b.col)

/-- Modelled from the spec: the detection configuration
`{method, threshold, min_separation}` (`quot.findSpots`, not under src/); the
minimum separation is carried squared, in pixel units.  The method variant
itself is passed as an arbitrary response function, since the spec does not
mandate a particular detection kernel. -/
structure DetectCfg (α : Type) where
  threshold : α
  minSep2 : Int
deriving DecidableEq

/-- Intensity at pixel `(r, c)` of a frame, zero outside the frame. -/
def pixelAt (f : Frame α) (r c : Nat) : α :=
  (f.data.getD r []).getD c 0

/-- All pixels whose detection response reaches the threshold, with their
scores, in row-major order. -/
def candPixels (cfg : DetectCfg α) (method : Frame α → Nat → Nat → α) (f : Frame α) :
    List (Cand × α) :=
  (List.range f.data.length).flatMap (fun r =>
    (List.range (f.data.getD r []).length).filterMap (fun c =>
      if cfg.threshold ≤ method f r c then some (⟨r, c⟩, method f r c) else none))

/-- Candidate priority: higher response first, ties broken by row-major pixel
position for determinism. -/
def scoreBefore (a b : Cand × α) : Bool :=
  decide (b.2 < a.2) ||
    (decide (a.2 = b.2) &&
      (decide (a.1.row < b.1.row) ||
        (a.1.row == b.1.row && decide (a.1.col ≤ b.1.col))))

/-- Non-maximum suppression with an explicit fuel argument: keep the best
remaining candidate, discard every other candidate within the minimum
separation of it, recurse on the rest. -/
def nmsAux (minSep2 : Int) : Nat → List (Cand × α) → List Cand
  | 0, _ => []
  | _, [] => []
  | fuel + 1, c :: cs =>
      c.1 :: nmsAux minSep2 fuel (cs.filter (fun k => decide (minSep2 ≤ cdist2 c.1 k.1)))

/-- Modelled from the spec: non-maximum suppression within the
minimum-separation radius, applied to the score-sorted candidate list. -/
def nms (minSep2 : Int) (l : List (Cand × α)) : List Cand :=
  nmsAux minSep2 l.length l

/-- Modelled from the spec: the Spot Detector (`quot.findSpots.detect`, not
under src/): threshold the response image, order candidate pixels by score and
apply non-maximum suppression.  A degenerate frame yields the empty candidate
sequence; the function is total, so no exception can abort the pipeline. -/
def detect (cfg : DetectCfg α) (method : Frame α → Nat → Nat → α) (f : Frame α) :
    List Cand :=
  if f.degenerate then []
  else nms cfg.minSep2 (sortByB scoreBefore (candPixels cfg method f))

theorem nmsAux_subset (minSep2 : Int) :
    ∀ (fuel : Nat) (l : List (Cand × α)) (x : Cand),
      x ∈ nmsAux minSep2 fuel l → ∃ p ∈ l, x = p.1 := by
  intro fuel
  induction fuel with
  | zero => intro l x hx; simp [nmsAux] at hx
  | succ fuel ih =>
      intro l x hx
      cases l with
      | nil => simp [nmsAux] at hx
      | cons c cs =>
          simp only [nmsAux, List.mem_cons] at hx
          rcases hx with rfl | hx
          · exact ⟨c, List.mem_cons_self c cs, rfl⟩
          · rcases ih _ x hx with ⟨p, hp, rfl⟩
            exact ⟨p, List.mem_cons_of_mem _ (List.mem_of_mem_filter hp), rfl⟩

theorem nmsAux_pairwise (minSep2 : Int) :
    ∀ (fuel : Nat) (l : List (Cand × α)),
      (nmsAux minSep2 fuel l).Pairwise (fun a b => minSep2 ≤ cdist2 a b) := by
  intro fuel
  induction fuel with
  | zero => intro l; simp [nmsAux]
  | succ fuel ih =>
      intro l
      cases l with
      | nil => simp [nmsAux]
      | cons c cs =>
          simp only [nmsAux, List.pairwise_cons]
          refine ⟨?_, ih _⟩
          intro b hb
          rcases nmsAux_subset minSep2 fuel _ b hb with ⟨p, hp, rfl⟩
          have := (List.mem_filter.mp hp).2
          simpa using this

/-- C5: any two distinct Candidates returned by the Spot Detector for one
Frame are separated by at least the configured minimum separation (squared
distances compared): non-maximum suppression holds. -/
theorem c5_detector_min_separation (cfg : DetectCfg α)
    (method : Frame α → Nat → Nat → α) (f : Frame α) :
    (detect cfg method f).Pairwise (fun a b => cfg.minSep2 ≤ cdist2 a b) := by
  unfold detect
  split
  · simp
  · exact nmsAux_pairwise cfg.minSep2 _ _

/-- Concrete detection configuration for the C5 witness. -/
def c5Cfg : DetectCfg ℤ :=
  ⟨3, 4⟩

/-- Pixel-intensity response: the detection method used by the witnesses. -/
def intensityMethod : Frame α → Nat → Nat → α :=
  fun f r c => pixelAt f r c

/-- A 3×3 frame with two adjacent bright pixels and one distant bright pixel. -/
def c5Frame : Frame ℤ :=
  ⟨0, [[9, 8, 0], [0, 0, 0], [0, 0, 7]]⟩

theorem c5_detector_min_separation_witness :
    (detect c5Cfg intensityMethod c5Frame).Pairwise
      (fun a b => c5Cfg.minSep2 ≤ cdist2 a b) :=
  c5_detector_min_separation c5Cfg intensityMethod c5Frame

/-- Modelled from the spec: the parameters of one point-spread-function fit:
sub-pixel position, amplitude, background level and spot width. -/
structure FitParams (α : Type) where
  pos : Pos α
  amp : α
  bg : α
  sigma : α
deriving DecidableEq

/-- Modelled from the spec: the localization configuration
`{window_size, max_iterations, tolerance}` (`quot.subpixel`, not under src/):
the half-window size of the fitting window, the iteration cap, and the squared
convergence tolerance on the position change per iteration. -/
structure LocCfg (α : Type) where
  halfWindow : α
  maxIters : Nat
  tol2 : α
deriving DecidableEq

/-- Modelled from the spec: the failure codes of a fit: no convergence within
the iteration cap, position escaped the fitting window, or a negative
(degenerate) amplitude. -/
inductive FitError
  | noConverge
  | escapedWindow
  | negAmplitude
deriving DecidableEq

/-- Modelled from the spec: a Subpixel Localizer outcome — exactly one of a
successful fit or a failure code. -/
inductive FitOutcome (α : Type)
  | success (p : FitParams α)
  | failure (e : FitError)
deriving DecidableEq

/-- Modelled from the spec: iterative refinement — apply the fit-update step
until the squared position change falls below the tolerance, or give up when
the iteration cap is reached (no possibly-divergent estimate is emitted). -/
def iterFit (step : FitParams α → FitParams α) (tol2 : α) :
    Nat → FitParams α → Option (FitParams α)
  | 0, _ => none
  | n + 1, p =>
      let p2 := step p
      if dist2 p.pos p2.pos ≤ tol2 then some p2 else iterFit step tol2 n p2

/-- The initial fit parameters seeded at a Candidate's integer position, with
the pixel intensity as starting amplitude. -/
def seedParams (f : Frame α) (c : Cand) : FitParams α :=
  ⟨⟨(c.row : α), (c.col : α)⟩, pixelAt f c.row c.col, 0, 1⟩

/-- Whether fitted parameters have moved more than the half-window size from
the seed Candidate's integer position along either axis. -/
def escapedB (cfg : LocCfg α) (c : Cand) (p : FitParams α) : Bool :=
  decide (cfg.halfWindow < p.pos.y - (c.row : α)) ||
    decide (cfg.halfWindow < (c.row : α) - p.pos.y) ||
    decide (cfg.halfWindow < p.pos.x - (c.col : α)) ||
    decide (cfg.halfWindow < (c.col : α) - p.pos.x)

/-- Modelled from the spec: the Subpixel Localizer (`quot.subpixel.localize`,
not under src/), generic over the fit-update step since the spec does not
mandate the fitting kernel: iterate from the seed; on convergence reject a
negative amplitude and a position that escaped the fitting window, and clamp
the background to non-negative values. -/
def localize (cfg : LocCfg α) (step : FitParams α → FitParams α) (f : Frame α)
    (c : Cand) : FitOutcome α :=
  match iterFit step cfg.tol2 cfg.maxIters (seedParams f c) with
  | none => FitOutcome.failure FitError.noConverge
  | some p =>
      if decide (p.amp < 0) then FitOutcome.failure FitError.negAmplitude
      else if escapedB cfg c p then FitOutcome.failure FitError.escapedWindow
      else FitOutcome.success ⟨p.pos, p.amp, max p.bg 0, p.sigma⟩

/-- C6: every successful Subpixel Localizer outcome has non-negative fitted
amplitude, non-negative background, and a fitted position within the fitting
window of the seed Candidate — it has moved at most the half-window size from
the Candidate's integer position along each axis. -/
theorem c6_localizer_success_bounds (cfg : LocCfg α) (step : FitParams α → FitParams α)
    (f : Frame α) (c : Cand) (out : FitParams α)
    (h : localize cfg step f c = FitOutcome.success out) :
    0 ≤ out.amp ∧ 0 ≤ out.bg ∧
      out.pos.y - (c.row : α) ≤ cfg.halfWindow ∧
      (c.row : α) - out.pos.y ≤ cfg.halfWindow ∧
      out.pos.x - (c.col : α) ≤ cfg.halfWindow ∧
      (c.col : α) - out.pos.x ≤ cfg.halfWindow := by
  unfold localize at h
  split at h
  · exact absurd h (by simp)
  case h_2 p heqIter =>
    split at h
    · exact absurd h (by simp)
    case isFalse hamp =>
      split at h
      · exact absurd h (by simp)
      case isFalse hesc =>
        have hout : out = ⟨p.pos, p.amp, max p.bg 0, p.sigma⟩ := by
          cases h; rfl
        subst hout
        have hamp' : 0 ≤ p.amp := by simpa using hamp
        have hesc' := hesc
        simp [escapedB] at hesc'
        obtain ⟨⟨⟨h1, h2⟩, h3⟩, h4⟩ := hesc'
        refine ⟨hamp', le_max_right _ _, ?_, ?_, ?_, ?_⟩ <;> linarith

/-- Concrete localization configuration for the C6 witness. -/
def c6Cfg : LocCfg ℤ :=
  ⟨1, 2, 0⟩

/-- A 2×2 frame whose pixel (0, 0) has intensity 5. -/
def c6Frame : Frame ℤ :=
  ⟨0, [[5, 0], [0, 0]]⟩

/-- The successful fit produced by the identity fit step on `c6Frame` at the
seed Candidate (0, 0). -/
def c6Out : FitParams ℤ :=
  ⟨⟨0, 0⟩, 5, 0, 1⟩

theorem c6_localizer_success_bounds_witness :
    0 ≤ c6Out.amp ∧ 0 ≤ c6Out.bg ∧
      c6Out.pos.y - ((Cand.row ⟨0, 0⟩ : Nat) : ℤ) ≤ c6Cfg.halfWindow ∧
      ((Cand.row ⟨0, 0⟩ : Nat) : ℤ) - c6Out.pos.y ≤ c6Cfg.halfWindow ∧
      c6Out.pos.x - ((Cand.col ⟨0, 0⟩ : Nat) : ℤ) ≤ c6Cfg.halfWindow ∧
      ((Cand.col ⟨0, 0⟩ : Nat) : ℤ) - c6Out.pos.x ≤ c6Cfg.halfWindow :=
  c6_localizer_success_bounds c6Cfg id c6Frame ⟨0, 0⟩ c6Out (by decide)

/-- Assign consecutive Localization identifiers starting at `n` to the
successful fits of the frame with index `fr`, in detection order. -/
def assignIds (fr : Nat) : Nat → List (FitParams α) → List (Loc α)
  | _, [] => []
  | n, p :: ps => ⟨n, fr, p.pos⟩ :: assignIds fr (n + 1) ps

/-- Modelled from the spec: the full pipeline configuration — detection,
localization and linking options. -/
structure PipeCfg (α : Type) where
  det : DetectCfg α
  fit : LocCfg α
  link : LinkCfg α
deriving DecidableEq

/-- Modelled from the spec: detection and subpixel localization of one Frame
(`quot.subpixel.localize_frame`, not under src/): localize every detected
Candidate, keep only the successful fits (a failed fit is recorded as a
failure and excluded from linking), and assign Localization identifiers in
detection order starting at `start`. -/
def localizeFrame (cfg : PipeCfg α) (method : Frame α → Nat → Nat → α)
    (step : FitParams α → FitParams α) (start : Nat) (f : Frame α) :
    List (Loc α) × Nat :=
  let fits := (detect cfg.det method f).filterMap (fun c =>
    match localize cfg.fit step f c with
    | FitOutcome.success p => some p
    | FitOutcome.failure _ => none)
  (assignIds f.index start fits, start + fits.length)

/-- The Pipeline Orchestrator's running state: the carried Frame Linker state
and the next fresh Localization identifier. -/
structure PipeState (α : Type) where
  link : LinkState α
  nextLocId : Nat
deriving DecidableEq

/-- The initial orchestration state. -/
def initPipeState : PipeState α :=
  ⟨initLinkState, 0⟩

/-- Modelled from the spec: process one Frame — detect, localize, then link
the frame's successful Localizations into the carried linker state. -/
def processFrame (cfg : PipeCfg α) (method : Frame α → Nat → Nat → α)
    (step : FitParams α → FitParams α) (st : PipeState α) (f : Frame α) :
    PipeState α :=
  let r := localizeFrame cfg method step st.nextLocId f
  ⟨linkFrame cfg.link st.link f.index r.1, r.2⟩

/-- Modelled from the spec: strictly sequential processing of a frame
sequence in frame order. -/
def processFrames (cfg : PipeCfg α) (method : Frame α → Nat → Nat → α)
    (step : FitParams α → FitParams α) (st : PipeState α) (frames : List (Frame α)) :
    PipeState α :=
  frames.foldl (processFrame cfg method step) st

/-- Modelled from the spec: the full pipeline over one file's frames
(`quot.core`, not under src/): detect → localize → link every frame, close all
remaining Trajectories after the final frame, and serialize the trajectory
table. -/
def trackFrames (cfg : PipeCfg α) (method : Frame α → Nat → Nat → α)
    (step : FitParams α → FitParams α) (frames : List (Frame α)) : List (Row α) :=
  trajTable (finishRun (processFrames cfg method step initPipeState frames).link)

/-- Modelled from the spec: the Orchestrator's chunked iteration
(`quot.core` and `quot.chunkFilter`, not under src/): process each chunk in
turn, carrying the active-Trajectory state across chunk boundaries
unmodified. -/
def trackChunked (cfg : PipeCfg α) (method : Frame α → Nat → Nat → α)
    (step : FitParams α → FitParams α) (chunks : List (List (Frame α))) :
    List (Row α) :=
  trajTable (finishRun
    (chunks.foldl (fun st ch => processFrames cfg method step st ch) initPipeState).link)

/-- Split a list into contiguous chunks of size `n` (fuel-based recursion;
the fuel is instantiated with the list length). -/
def chunksOfAux {β : Type} (n : Nat) : Nat → List β → List (List β)
  | _, [] => []
  | 0, l => [l]
  | fuel + 1, l => l.take n :: chunksOfAux n fuel (l.drop n)

/-- Split a list into contiguous chunks of size `n`. -/
def chunksOf {β : Type} (n : Nat) (l : List β) : List (List β) :=
  chunksOfAux n l.length l

theorem flatten_chunksOfAux {β : Type} (n : Nat) (_hn : 0 < n) :
    ∀ (fuel : Nat) (l : List β), (chunksOfAux n fuel l).flatten = l := by
  intro fuel
  induction fuel with
  | zero =>
      intro l
      cases l with
      | nil => simp [chunksOfAux]
      | cons b bs => simp [chunksOfAux]
  | succ fuel ih =>
      intro l
      cases l with
      | nil => simp [chunksOfAux]
      | cons b bs =>
          simp only [chunksOfAux, List.flatten_cons, ih]
          exact List.take_append_drop n (b :: bs)

theorem flatten_chunksOf {β : Type} (n : Nat) (hn : 0 < n) (l : List β) :
    (chunksOf n l).flatten = l :=
  flatten_chunksOfAux n hn l.length l

theorem trackChunked_eq_flatten (cfg : PipeCfg α) (method : Frame α → Nat → Nat → α)
    (step : FitParams α → FitParams α) (chunks : List (List (Frame α))) :
    trackChunked cfg method step chunks = trackFrames cfg method step chunks.flatten := by
  unfold trackChunked trackFrames
  simp only [processFrames, List.foldl_flatten]

/-- C3: chunking is invisible — processing a frame sequence in arbitrary
chunks (in particular in chunks of any positive size such as 10 or 50, or in
one all-frames chunk) yields the identical trajectory table as processing the
frames unchunked, because the linker state is carried across chunk boundaries
unmodified. -/
theorem c3_chunking_invariant (cfg : PipeCfg α) (method : Frame α → Nat → Nat → α)
    (step : FitParams α → FitParams α) (frames : List (Frame α))
    (chunks : List (List (Frame α))) (n : Nat) (hn : 0 < n) :
    trackChunked cfg method step chunks = trackFrames cfg method step chunks.flatten ∧
      trackChunked cfg method step (chunksOf n frames) = trackFrames cfg method step frames ∧
      trackChunked cfg method step [frames] = trackFrames cfg method step frames := by
  refine ⟨trackChunked_eq_flatten cfg method step chunks, ?_, ?_⟩
  · rw [trackChunked_eq_flatten, flatten_chunksOf n hn]
  · rw [trackChunked_eq_flatten]
    simp

/-- Concrete pipeline configuration for the C3 witness. -/
def c3Cfg : PipeCfg ℤ :=
  ⟨⟨3, 4⟩, ⟨1, 2, 0⟩, ⟨2, 1⟩⟩

/-- Concrete frames for the C3 witness. -/
def c3FramesW : List (Frame ℤ) :=
  [⟨0, [[5, 0], [0, 0]]⟩, ⟨1, [[0, 6], [0, 0]]⟩]

theorem c3_chunking_invariant_witness :
    trackChunked c3Cfg intensityMethod id ([] : List (List (Frame ℤ))) =
        trackFrames c3Cfg intensityMethod id ([] : List (List (Frame ℤ))).flatten ∧
      trackChunked c3Cfg intensityMethod id (chunksOf 10 c3FramesW) =
        trackFrames c3Cfg intensityMethod id c3FramesW ∧
      trackChunked c3Cfg intensityMethod id [c3FramesW] =
        trackFrames c3Cfg intensityMethod id c3FramesW :=
  c3_chunking_invariant c3Cfg intensityMethod id c3FramesW [] 10 (by decide)

/-- C4: the pipeline is deterministic — identical input frames and identical
configuration give the byte-identical trajectory table — and the per-frame
assignment is minimal for the selection key whose final component breaks ties
by lowest Trajectory identifier, then lowest Localization identifier: among
feasible matchings of equal size and equal total cost, the chosen matching's
identifier pairs are lexicographically least. -/
theorem c4_determinism_tiebreak (cfg cfg2 : PipeCfg α)
    (method : Frame α → Nat → Nat → α) (step : FitParams α → FitParams α)
    (frames frames2 : List (Frame α)) (hc : cfg = cfg2) (hf : frames = frames2) :
    trackFrames cfg method step frames = trackFrames cfg2 method step frames2 ∧
      ∀ (ts : List (Traj α)) (ls : List (Loc α)) (m : List (Traj α × Loc α)),
        m ∈ allMatchings cfg.link ts ls →
        matchKey ts.length (chooseMatching cfg.link ts ls) ≤ matchKey ts.length m ∧
          (m.length = (chooseMatching cfg.link ts ls).length →
            totalCost m = totalCost (chooseMatching cfg.link ts ls) →
            pairIds (chooseMatching cfg.link ts ls) ≤ pairIds m) := by
  subst hc
  subst hf
  refine ⟨rfl, ?_⟩
  intro ts ls m hm
  have hmin := chooseMatching_min cfg.link ts ls m hm
  refine ⟨hmin, ?_⟩
  intro hlen hcost
  rw [matchKey, matchKey] at hmin
  rcases (Prod.Lex.le_iff _ _).mp hmin with hlt | ⟨_, hrest⟩
  · rw [hlen] at hlt
    exact absurd hlt (lt_irrefl _)
  · rcases (Prod.Lex.le_iff _ _).mp hrest with hlt2 | ⟨_, hle3⟩
    · rw [hcost] at hlt2
      exact absurd hlt2 (lt_irrefl _)
    · exact hle3

/-- Concrete frames for the C4 witness. -/
def c4FramesW : List (Frame ℤ) :=
  [⟨0, [[5, 0], [0, 0]]⟩]

theorem c4_determinism_tiebreak_witness :
    trackFrames c3Cfg intensityMethod id c4FramesW =
        trackFrames c3Cfg intensityMethod id c4FramesW ∧
      ∀ (ts : List (Traj ℤ)) (ls : List (Loc ℤ)) (m : List (Traj ℤ × Loc ℤ)),
        m ∈ allMatchings c3Cfg.link ts ls →
        matchKey ts.length (chooseMatching c3Cfg.link ts ls) ≤ matchKey ts.length m ∧
          (m.length = (chooseMatching c3Cfg.link ts ls).length →
            totalCost m = totalCost (chooseMatching c3Cfg.link ts ls) →
            pairIds (chooseMatching c3Cfg.link ts ls) ≤ pairIds m) :=
  c4_determinism_tiebreak c3Cfg c3Cfg intensityMethod id c4FramesW c4FramesW rfl rfl

/-- C8: the Spot Detector is a total function — no exception can abort the
pipeline — a degenerate Frame yields the empty candidate sequence, and
processing of the subsequent frames continues from the state in which the
degenerate frame contributed no Localizations (active Trajectories simply
advance through the empty frame). -/
theorem c8_degenerate_frame_recoverable (cfg : PipeCfg α)
    (method : Frame α → Nat → Nat → α) (step : FitParams α → FitParams α)
    (f : Frame α) (st : PipeState α) (fs : List (Frame α))
    (hdeg : f.degenerate = true) :
    detect cfg.det method f = [] ∧
      processFrames cfg method step st (f :: fs) =
        processFrames cfg method step
          ⟨linkFrame cfg.link st.link f.index [], st.nextLocId⟩ fs := by
  have hd : detect cfg.det method f = [] := by
    unfold detect
    rw [if_pos hdeg]
  refine ⟨hd, ?_⟩
  simp only [processFrames, List.foldl_cons]
  have hstep : processFrame cfg method step st f =
      ⟨linkFrame cfg.link st.link f.index [], st.nextLocId⟩ := by
    unfold processFrame localizeFrame
    rw [hd]
    simp [assignIds]
  rw [hstep]

/-- A degenerate (empty) frame for the C8 witness. -/
def c8DegFrame : Frame ℤ :=
  ⟨1, []⟩

theorem c8_degenerate_frame_recoverable_witness :
    detect c3Cfg.det intensityMethod c8DegFrame = [] ∧
      processFrames c3Cfg intensityMethod id (initPipeState : PipeState ℤ)
          (c8DegFrame :: c4FramesW) =
        processFrames c3Cfg intensityMethod id
          ⟨linkFrame c3Cfg.link (initPipeState : PipeState ℤ).link c8DegFrame.index [],
            (initPipeState : PipeState ℤ).nextLocId⟩ c4FramesW :=
  c8_degenerate_frame_recoverable c3Cfg intensityMethod id c8DegFrame initPipeState
    c4FramesW (by decide)

/-- The five names imported from `quot.core` by `src/quot/__init__.py`
(lines 12–18): the CLI-equivalent operations. -/
def quotCoreImports : List String :=
  ["localize_file", "track_file", "track_directory", "retrack_file", "retrack_files"]

/-- Every name exposed by `src/quot/__init__.py`: the five `quot.core`
operations, then the readers and the per-stage entry points, in source
order. -/
def quotInitExports : List String :=
  ["localize_file", "track_file", "track_directory", "retrack_file", "retrack_files",
    "ImageReader", "read_config", "ChunkFilter", "detect", "localize",
    "localize_frame", "track"]

/-- Modelled from the spec: the Localizations of a whole file, produced by
detection and subpixel localization frame by frame with globally increasing
Localization identifiers. -/
def allLocs (cfg : PipeCfg α) (method : Frame α → Nat → Nat → α)
    (step : FitParams α → FitParams α) (frames : List (Frame α)) : List (Loc α) :=
  (frames.foldl
    (fun acc f =>
      let r := localizeFrame cfg method step acc.2 f
      (acc.1 ++ r.1, r.2))
    (([] : List (Loc α)), 0)).1

/-- Modelled from the spec: `quot.core.localize_file` (not under src/):
detect and localize every frame of one file, producing a localization table;
`none` models the per-file failure status of an unreadable file. -/
def localize_file (cfg : PipeCfg α) (method : Frame α → Nat → Nat → α)
    (step : FitParams α → FitParams α) (reader : String → Option (List (Frame α)))
    (path : String) : Option (List (Loc α)) :=
  (reader path).map (allLocs cfg method step)

/-- Modelled from the spec: `quot.core.track_file` (not under src/): run the
full pipeline — detect, localize, link — on one file, producing a trajectory
table; `none` models the per-file failure status of an unreadable file. -/
def track_file (cfg : PipeCfg α) (method : Frame α → Nat → Nat → α)
    (step : FitParams α → FitParams α) (reader : String → Option (List (Frame α)))
    (path : String) : Option (List (Row α)) :=
  (reader path).map (trackFrames cfg method step)

/-- Modelled from the spec: `quot.core.track_directory` (not under src/):
track every file of a directory independently, with no shared linking state;
a failed file does not abort its siblings. -/
def track_directory (cfg : PipeCfg α) (method : Frame α → Nat → Nat → α)
    (step : FitParams α → FitParams α) (reader : String → Option (List (Frame α)))
    (paths : List String) : List (String × Option (List (Row α))) :=
  paths.map (fun p => (p, track_file cfg method step reader p))

/-- Modelled from the spec: `quot.core.retrack_file` (not under src/): load an
existing per-frame Localization table and run only the Frame Linker with new
parameters, bypassing detection and fitting. -/
def retrack_file (cfg : LinkCfg α)
    (locReader : String → Option (List (Nat × List (Loc α)))) (path : String) :
    Option (List (Row α)) :=
  (locReader path).map (fun lfs => trajTable (finishRun (linkRun cfg initLinkState lfs)))

/-- Modelled from the spec: `quot.core.retrack_files` (not under src/):
re-track a set of files independently. -/
def retrack_files (cfg : LinkCfg α)
    (locReader : String → Option (List (Nat × List (Loc α)))) (paths : List String) :
    List (String × Option (List (Row α))) :=
  paths.map (fun p => (p, retrack_file cfg locReader p))

/-- C9: the package's public interface exposes exactly one top-level
operation for each of the five CLI-equivalent operations — localize a file,
track a file, track a directory, re-track a file, re-track a set of files —
and each modelled operation takes input path(s) plus a configuration and
produces a table exactly when its input is readable (its success status
mirrors the reader), directory variants reporting one status per file. -/
theorem c9_public_interface_operations (cfg : PipeCfg α)
    (method : Frame α → Nat → Nat → α) (step : FitParams α → FitParams α)
    (reader : String → Option (List (Frame α)))
    (locReader : String → Option (List (Nat × List (Loc α))))
    (path : String) (paths : List String) :
    quotCoreImports.all (fun n => quotInitExports.count n == 1) = true ∧
      quotCoreImports.Nodup ∧
      (localize_file cfg method step reader path).isSome = (reader path).isSome ∧
      (track_file cfg method step reader path).isSome = (reader path).isSome ∧
      (retrack_file cfg.link locReader path).isSome = (locReader path).isSome ∧
      (track_directory cfg method step reader paths).length = paths.length ∧
      (retrack_files cfg.link locReader paths).length = paths.length := by
  refine ⟨by decide, by decide, ?_, ?_, ?_, ?_, ?_⟩
  · unfold localize_file
    cases reader path <;> simp
  · unfold track_file
    cases reader path <;> simp
  · unfold retrack_file
    cases locReader path <;> simp
  · unfold track_directory
    simp
  · unfold retrack_files
    simp

/-- A one-file reader for the C9 witness. -/
def c9Reader : String → Option (List (Frame ℤ)) :=
  fun p => if p = "a.tif" then some c4FramesW else none

/-- A saved-localization reader for the C9 witness. -/
def c9LocReader : String → Option (List (Nat × List (Loc ℤ))) :=
  fun p => if p = "a_tracks.csv" then some c1Frames else none

theorem c9_public_interface_operations_witness :
    quotCoreImports.all (fun n => quotInitExports.count n == 1) = true ∧
      quotCoreImports.Nodup ∧
      (localize_file c3Cfg intensityMethod id c9Reader "a.tif").isSome =
        (c9Reader "a.tif").isSome ∧
      (track_file c3Cfg intensityMethod id c9Reader "a.tif").isSome =
        (c9Reader "a.tif").isSome ∧
      (retrack_file c3Cfg.link c9LocReader "a.tif").isSome =
        (c9LocReader "a.tif").isSome ∧
      (track_directory c3Cfg intensityMethod id c9Reader ["a.tif", "b.tif"]).length =
        (["a.tif", "b.tif"] : List String).length ∧
      (retrack_files c3Cfg.link c9LocReader ["a.tif", "b.tif"]).length =
        (["a.tif", "b.tif"] : List String).length :=
  c9_public_interface_operations c3Cfg intensityMethod id c9Reader c9LocReader
    "a.tif" ["a.tif", "b.tif"]

/-- A filesystem path, embedded as its character sequence (a Python string). -/
abbrev FPath := List Char

/-- `os.path.isfile`: whether a path names an existing file, relative to the
list of existing files. -/
def isfileB (fs : List FPath) (p : FPath) : Bool :=
  fs.contains p

/-- `os.path.dirname` on POSIX paths: everything before the final slash, with
trailing slashes stripped unless the head consists only of slashes. -/
def dirname (p : FPath) : FPath :=
  let base := (p.reverse.takeWhile (fun c => !(c == '/'))).reverse
  let head := p.take (p.length - base.length)
  if head.all (fun c => c == '/') then head
  else (head.reverse.dropWhile (fun c => c == '/')).reverse

/-- Whether the first character sequence starts the second. -/
def isPreB : FPath → FPath → Bool
  | [], _ => true
  | _ :: _, [] => false
  | a :: as, b :: bs => a == b && isPreB as bs

/-- Python's `in` on strings: whether `pat` occurs inside the sequence. -/
def hasSubB (pat : FPath) : FPath → Bool
  | [] => pat.isEmpty
  | c :: cs => isPreB pat (c :: cs) || hasSubB pat cs

/-- Fuel-based worker for `replaceAll` (the pattern is `p0 :: pr`). -/
def replaceAux (p0 : Char) (pr rep : FPath) : Nat → FPath → FPath
  | _, [] => []
  | 0, l => l
  | fuel + 1, c :: cs =>
      if isPreB (p0 :: pr) (c :: cs) then
        rep ++ replaceAux p0 pr rep fuel (cs.drop pr.length)
      else c :: replaceAux p0 pr rep fuel cs

/-- Python's `str.replace` for a non-empty pattern: replace every
non-overlapping occurrence, left to right. -/
def replaceAll (s pat rep : FPath) : FPath :=
  match pat with
  | [] => s
  | p0 :: pr => replaceAux p0 pr rep s.length s

/-- The literal `"_tracks.csv"` used by the launcher to find a matching
image file. -/
def tracksTag : FPath :=
  "_tracks.csv".toList

/-- The viewers the launcher can construct, with their constructor
arguments. -/
inductive Viewer
  | spotV (image locs : FPath)
  | trackViewerV (image locs : FPath)
  | attrV (locs : FPath)
  | maskV (image : FPath)
deriving DecidableEq

/-- `Launcher.launch_spot_viewer` / `launch_track_viewer` lines 140–156: if
the selected localization CSV path contains `_tracks.csv`, try the `.nd2`
then the `.tif` replacement as the matching image file. -/
def autoImageFile (fs : List FPath) (path : FPath) : Option FPath :=
  if hasSubB tracksTag path then
    let nd2 := replaceAll path tracksTag ".nd2".toList
    let tif := replaceAll path tracksTag ".tif".toList
    if isfileB fs nd2 then some nd2
    else if isfileB fs tif then some tif
    else none
  else none

/-- The image path a spot/track viewer launch will check: the automatically
found image file when one exists, otherwise the user's selection. -/
def chooseImagePath (fs : List FPath) (path imgSel : FPath) : FPath :=
  (autoImageFile fs path).getD imgSel

/-- `Launcher.launch_spot_viewer` (`src/quot/gui/launcher.py` lines 124–164):
given the selected localizations CSV and, when prompted, the selected image
file, returns the updated `self.currdir` and the constructed viewer, if any. -/
def launch_spot_viewer (fs : List FPath) (cur csvSel imgSel : FPath) :
    FPath × Option Viewer :=
  if isfileB fs csvSel then
    let cur2 := dirname csvSel
    let image := chooseImagePath fs csvSel imgSel
    if isfileB fs image then (cur2, some (Viewer.spotV image csvSel))
    else (cur2, none)
  else (cur, none)

/-- `Launcher.launch_track_viewer` (`src/quot/gui/launcher.py` lines
166–207): identical path handling to the spot viewer. -/
def launch_track_viewer (fs : List FPath) (cur csvSel imgSel : FPath) :
    FPath × Option Viewer :=
  if isfileB fs csvSel then
    let cur2 := dirname csvSel
    let image := chooseImagePath fs csvSel imgSel
    if isfileB fs image then (cur2, some (Viewer.trackViewerV image csvSel))
    else (cur2, none)
  else (cur, none)

/-- `Launcher.launch_attribute_viewer` (`src/quot/gui/launcher.py` lines
209–226). -/
def launch_attribute_viewer (fs : List FPath) (cur sel : FPath) :
    FPath × Option Viewer :=
  if isfileB fs sel then (dirname sel, some (Viewer.attrV sel))
  else (cur, none)

/-- `Launcher.launch_masker` (`src/quot/gui/launcher.py` lines 228–245). -/
def launch_masker (fs : List FPath) (cur sel : FPath) : FPath × Option Viewer :=
  if isfileB fs sel then (dirname sel, some (Viewer.maskV sel))
  else (cur, none)

/-- The existing files for the C10 counterexample: only the CSV exists. -/
def c10Fs : List FPath :=
  ["d/a_tracks.csv".toList]

/-- The selected localizations CSV (exists). -/
def c10Csv : FPath :=
  "d/a_tracks.csv".toList

/-- The selected image file (does not exist). -/
def c10Img : FPath :=
  "missing.tif".toList

/-- The launcher's `currdir` before the launch. -/
def c10Home : FPath :=
  "home".toList

/-- C10 counterexample: in `launch_spot_viewer`, when the selected CSV exists
but the subsequently selected image file does not, the method returns without
constructing a viewer — yet `self.currdir` has already been changed to the
CSV's directory, so a selected path that does not name an existing file does
not always leave `self.currdir` unchanged. -/
theorem c10_launcher_path_checks_counterexample :
    isfileB c10Fs c10Img = false ∧
      (launch_spot_viewer c10Fs c10Home c10Csv c10Img).2 = none ∧
      (launch_spot_viewer c10Fs c10Home c10Csv c10Img).1 ≠ c10Home := by
  decide

/-- C10 as amended: for the first path selected in each method (the
localizations CSV for the spot/track/attribute viewers, the image for the
masker), a nonexistent selection returns with no viewer and `currdir`
unchanged, and an existing selection sets `currdir` to that file's directory;
when the spot/track viewer's image path does not name an existing file the
method still returns without a viewer, but `currdir` keeps the update to the
(existing) CSV's directory.  `currdir` is only ever updated to the directory
of an existing selected file. -/
theorem c10_launcher_path_checks (fs : List FPath) (cur sel img : FPath) :
    (isfileB fs sel = false →
      launch_spot_viewer fs cur sel img = (cur, none) ∧
        launch_track_viewer fs cur sel img = (cur, none) ∧
        launch_attribute_viewer fs cur sel = (cur, none) ∧
        launch_masker fs cur sel = (cur, none)) ∧
    (isfileB fs sel = true →
      (launch_spot_viewer fs cur sel img).1 = dirname sel ∧
        (launch_track_viewer fs cur sel img).1 = dirname sel ∧
        launch_attribute_viewer fs cur sel = (dirname sel, some (Viewer.attrV sel)) ∧
        launch_masker fs cur sel = (dirname sel, some (Viewer.maskV sel))) ∧
    (isfileB fs sel = true → isfileB fs (chooseImagePath fs sel img) = false →
      launch_spot_viewer fs cur sel img = (dirname sel, none) ∧
        launch_track_viewer fs cur sel img = (dirname sel, none)) := by
  refine ⟨?_, ?_, ?_⟩
  · intro h
    simp [launch_spot_viewer, launch_track_viewer, launch_attribute_viewer,
      launch_masker, h]
  · intro h
    refine ⟨?_, ?_, by simp [launch_attribute_viewer, h], by simp [launch_masker, h]⟩
    · simp only [launch_spot_viewer, h, if_true]
      cases hc : isfileB fs (chooseImagePath fs sel img) <;> simp [hc]
    · simp only [launch_track_viewer, h, if_true]
      cases hc : isfileB fs (chooseImagePath fs sel img) <;> simp [hc]
  · intro h1 h2
    constructor
    · simp [launch_spot_viewer, h1, h2]
    · simp [launch_track_viewer, h1, h2]

theorem c10_launcher_path_checks_witness :
    launch_spot_viewer c10Fs c10Home c10Img c10Img = (c10Home, none) ∧
      launch_track_viewer c10Fs c10Home c10Img c10Img = (c10Home, none) ∧
      launch_attribute_viewer c10Fs c10Home c10Img = (c10Home, none) ∧
      launch_masker c10Fs c10Home c10Img = (c10Home, none) :=
  (c10_launcher_path_checks c10Fs c10Home c10Img c10Img).1 (by decide)

end QuotSPT
